import Mathlib

/-!
# Verification of the gognestcli core against its specification

Shallow embedding of the gognestcli repository (Go) in Lean 4:

* `ConfigPkg` — `internal/config/config.go` (`Load`).
* `NestSession` — `internal/webrtc` session lifecycle (`Close`, `extendLoop`,
  the ICE connection-state handler installed by `NewSession`, `pliLoop`).
* `Orchestrator` — the event loop of `internal/cmd/events.go`
  (dedup table, snapshot/clip admission semaphores).
* `Reassembler` — the media-reassembly pipeline of `internal/recorder`
  (`H264Writer.HandleVideoTrack` over the sample builder).
* `SnapRecorder` — the snapshot finalization paths of `internal/recorder`
  (both the legacy WebM-based `TakeSnapshot` and the current raw-H264 one).

Machine integers do not overflow in the modelled fragments, so counters are
`Nat`/`Int`; fallible operations return `Option`/`Except`; goroutine
interleavings are modelled as explicit action traces.
-/

namespace ConfigPkg

/-- Mirrors `config.Config` (internal/config/config.go). -/
structure Config where
  clientID : String
  clientSecret : String
  projectID : String
  deviceID : String
  pubSubSub : String
deriving DecidableEq

/-- The zero value `&Config{}` returned when the config file is absent. -/
def emptyConfig : Config := ⟨"", "", "", "", ""⟩

/-- Outcome of `os.ReadFile` on the config path: the file may not exist,
may fail to read for another reason, or yields raw bytes. -/
inductive ReadResult
  | notExist
  | readErr (e : String)
  | ok (data : String)

/-- Embeds `config.Load` (config.go lines 23-40).  `dir` is the result of
`Dir()`, `read` the result of `os.ReadFile`, and `parse` stands for
`json.Unmarshal` into a `Config`. -/
def load (dir : Except String String) (read : ReadResult)
    (parse : String → Except String Config) : Except String Config :=
  match dir with
  | .error e => .error e
  | .ok _ =>
    match read with
    | .notExist => .ok emptyConfig
    | .readErr e => .error e
    | .ok data =>
      match parse data with
      | .error e => .error e
      | .ok cfg => .ok cfg

end ConfigPkg

namespace NestSession

/-- The fields of `webrtc.Session` (src/unnamed/part_001) that `Close`,
`extendLoop` and `pliLoop` consult.  `cancelSet`, `extendSet` and `stopSet`
record whether the corresponding function-valued fields are non-nil (they are
all set together by `SetAnswer` and are nil before it runs). -/
structure Session where
  closed : Bool
  cancelSet : Bool
  extendSet : Bool
  stopSet : Bool
  mediaSessionID : String
deriving DecidableEq

/-- Side effects of one `Close` call: invocations of `s.cancel`, of
`s.stopFn` (the remote stop API) and of `s.pc.Close()` (release of the
transport endpoint). -/
structure CloseEffects where
  cancelCalls : Nat
  stopCalls : Nat
  pcCloseCalls : Nat
deriving DecidableEq

/-- Embeds `Session.Close` (part_001 lines 166-184).  `pcErr` is whether the
underlying `s.pc.Close()` reports an error; the returned `Bool` is whether
this `Close` call returns a non-nil error.  The mutex serializes calls, so
repeated calls are modelled sequentially. -/
def close (pcErr : Bool) (s : Session) : Session × CloseEffects × Bool :=
  if s.closed then
    (s, ⟨0, 0, 0⟩, false)
  else
    ({ s with closed := true },
     ⟨(if s.cancelSet then 1 else 0),
      (if s.stopSet ∧ s.mediaSessionID ≠ "" then 1 else 0),
      1⟩,
     pcErr)

/-- `n` successive `Close` calls on the same session: final state, summed
effects, and the list of returned error flags in call order. -/
def closeN (pcErr : Bool) (s : Session) : Nat → Session × CloseEffects × List Bool
  | 0 => (s, ⟨0, 0, 0⟩, [])
  | n + 1 =>
    let r1 := close pcErr s
    let r := closeN pcErr r1.1 n
    (r.1,
     ⟨r1.2.1.cancelCalls + r.2.1.cancelCalls,
      r1.2.1.stopCalls + r.2.1.stopCalls,
      r1.2.1.pcCloseCalls + r.2.1.pcCloseCalls⟩,
     r1.2.2 :: r.2.2)

/-- `extendInterval = 4 * time.Minute` (part_001 line 14), in seconds. -/
def extendInterval : Nat := 4 * 60

/-- `pliInterval = 2 * time.Second` (part_001 line 15), in seconds. -/
def pliInterval : Nat := 2

/-- Wall-clock time (seconds after `SetAnswer`) of the i-th ticker firing of
the extension loop: the ticker first fires one full interval after start. -/
def extendTickTime (i : Nat) : Nat := (i + 1) * extendInterval

/-- One observable event of a periodic loop: either the governing context is
cancelled (`Close` ran `s.cancel()`), or the ticker fires.  For the extension
loop a tick carries the result of `s.extendFn(s.mediaSessionID)`:
`none` = success, `some e` = error `e`. -/
inductive ExtendEvent
  | cancelled
  | tick (err : Option String)
deriving DecidableEq

/-- Observable outcome of running `Session.extendLoop` (part_001
lines 207-223) over a list of loop events. -/
structure ExtendRun where
  /-- number of `extendFn` invocations made -/
  attempts : Nat
  /-- number of warnings printed (one per failed attempt) -/
  warnings : Nat
  /-- number of ticker firings the loop served -/
  served : Nat
  /-- whether the loop returned (only `ctx.Done()` makes it return) -/
  stopped : Bool
deriving DecidableEq

/-- Embeds `Session.extendLoop`: on each tick, if `s.extendFn != nil` and
`s.mediaSessionID != ""`, invoke the extend function; a returned error is
only printed as a warning.  The loop body never mutates the session and
never breaks out of the loop; only context cancellation returns.  The
returned session is the (unchanged) session value. -/
def extendLoopRun (s : Session) : List ExtendEvent → Session × ExtendRun
  | [] => (s, ⟨0, 0, 0, false⟩)
  | .cancelled :: _ => (s, ⟨0, 0, 0, true⟩)
  | .tick err :: rest =>
    let r := extendLoopRun s rest
    if s.extendSet = true ∧ s.mediaSessionID ≠ "" then
      (r.1,
       ⟨r.2.attempts + 1,
        r.2.warnings + (if err.isSome then 1 else 0),
        r.2.served + 1,
        r.2.stopped⟩)
    else
      (r.1, ⟨r.2.attempts, r.2.warnings, r.2.served + 1, r.2.stopped⟩)

/-- ICE connection states delivered to the handler installed by
`NewSession` via `OnICEConnectionStateChange`. -/
inductive ICEState
  | new
  | checking
  | connected
  | completed
  | disconnected
  | failed
  | closed
deriving DecidableEq

/-- Embeds the state-change callback of `NewSession` (part_001
lines 107-115).  `fired` is whether `connectedOnce` has already run
(`sync.Once`); the second component is whether this invocation closes the
`Connected` channel (the one-shot signal). -/
def onICEStateChange (fired : Bool) (st : ICEState) : Bool × Bool :=
  if st = ICEState.connected then
    if fired then (fired, false) else (true, true)
  else (fired, false)

/-- The signal emitted by each successive state-change notification, given
the initial `sync.Once` state. -/
def iceSignals (fired : Bool) : List ICEState → List Bool
  | [] => []
  | st :: rest =>
    let r := onICEStateChange fired st
    r.2 :: iceSignals r.1 rest

/-- A remote track as `pliLoop` sees it: `receiver.Track()` may be nil
(modelled by `Option`), and a non-nil track has a kind and an SSRC. -/
inductive TrackKind
  | audio
  | video
deriving DecidableEq

/-- The data of a non-nil `*webrtc.TrackRemote` that `pliLoop` reads. -/
structure Track where
  kind : TrackKind
  ssrc : Nat
deriving DecidableEq

/-- An `rtcp.PictureLossIndication` control message. -/
structure PLIPacket where
  mediaSSRC : Nat
deriving DecidableEq

/-- Embeds one ticker firing of `Session.pliLoop` (part_001 lines 190-204):
for each receiver of `s.pc.GetReceivers()`, if its track is non-nil and of
video kind, write one PLI carrying the track SSRC. -/
def pliTick (receivers : List (Option Track)) : List PLIPacket :=
  receivers.filterMap fun r =>
    match r with
    | some t => if t.kind = TrackKind.video then some ⟨t.ssrc⟩ else none
    | none => none

/-- One observable event of the keyframe-request loop: cancellation of the
session context, or a ticker firing with the then-current receiver list. -/
inductive PliEvent
  | cancelled
  | tick (receivers : List (Option Track))

/-- Embeds `Session.pliLoop` as a whole: serve ticks until the context is
cancelled, producing the PLI batch of each served tick. -/
def pliLoopRun : List PliEvent → List (List PLIPacket)
  | [] => []
  | .cancelled :: _ => []
  | .tick rs :: rest => pliTick rs :: pliLoopRun rest

end NestSession

namespace Orchestrator

/-- The fields of `pubsub.Event` the event loop of
`internal/cmd/events.go` reads.  The timestamp is in whole seconds; the
dedup key concatenates its rendering with the event type, exactly as
`event.Timestamp.String() + event.EventType` does (the rendering of a time
value is injective). -/
structure Event where
  deviceName : String
  eventType : String
  eventID : String
  timestamp : Nat
deriving DecidableEq

/-- The two capture flags of `EventsCmd` consulted by the loop. -/
structure EventsCmd where
  capture : Bool
  clip : Bool
deriving DecidableEq

/-- `strings.Contains`. -/
def containsSub (s sub : String) : Bool := decide (sub.data <:+: s.data)

/-- Embeds `isActionableEvent` (events.go lines 141-143). -/
def isActionableEvent (eventType : String) : Bool :=
  containsSub eventType "Motion" || containsSub eventType "Person"

/-- Embeds `dedupKey := event.Timestamp.String() + event.EventType`
(events.go line 94). -/
def dedupKey (ev : Event) : String := toString ev.timestamp ++ ev.eventType

/-- Dedup entries live for one minute (events.go line 99), in seconds. -/
def dedupWindow : Nat := 60

/-- The dedup entries still present at time `now`: the per-key eviction
goroutine spawned at record time `r` deletes the key once 60 s have
elapsed, so an entry is present exactly while `now < r + 60`. -/
def aliveEntries (now : Nat) (table : List (String × Nat)) : List (String × Nat) :=
  table.filter fun e => now < e.2 + dedupWindow

/-- The shared mutable state of the event loop (events.go lines 80-85):
the dedup table (key with record time), the capture sequence counter, and
the occupancy of the two capacity-1 admission semaphores `snapSem` and
`clipSem`. -/
structure OrchState where
  dedup : List (String × Nat)
  seq : Int
  snapOcc : Nat
  clipOcc : Nat
deriving DecidableEq

/-- The loop starts with an empty dedup table, `captureSeq = 0` and both
semaphores empty. -/
def initState : OrchState := ⟨[], 0, 0, 0⟩

/-- Observable outcome of one admission decision in the handler. -/
inductive Outcome
  | snapStarted (seq : Int)
  | snapSkipped
  | clipStarted (seq : Int)
  | clipSkipped
deriving DecidableEq

/-- Embeds the snapshot admission (events.go lines 114-124): attempted only
when `e.Capture && event.EventID != ""`; the non-blocking send on the
capacity-1 `snapSem` succeeds exactly when the slot is empty, otherwise the
`default` branch prints the skip message. -/
def snapAdmission (cmd : EventsCmd) (ev : Event) (occ : Nat) (seq : Int) :
    Nat × List Outcome :=
  if cmd.capture = true ∧ ev.eventID ≠ "" then
    if occ < 1 then (occ + 1, [Outcome.snapStarted seq])
    else (occ, [Outcome.snapSkipped])
  else (occ, [])

/-- Embeds the clip admission (events.go lines 127-137), same pattern on
`clipSem`, attempted whenever `e.Clip` is set. -/
def clipAdmission (cmd : EventsCmd) (occ : Nat) (seq : Int) :
    Nat × List Outcome :=
  if cmd.clip = true then
    if occ < 1 then (occ + 1, [Outcome.clipStarted seq])
    else (occ, [Outcome.clipSkipped])
  else (occ, [])

/-- Embeds the per-event handler body (events.go lines 87-138) at arrival
time `now`: dedup check-and-record (`dedup.LoadOrStore`) with the expired
entries gone, the actionable-kind gate, the sequence increment, then the two
independent admissions. -/
def handleEvent (cmd : EventsCmd) (now : Nat) (st : OrchState) (ev : Event) :
    OrchState × List Outcome :=
  let alive := aliveEntries now st.dedup
  if (alive.find? fun e => e.1 == dedupKey ev).isSome then
    ({ st with dedup := alive }, [])
  else if isActionableEvent ev.eventType = false then
    ({ st with dedup := (dedupKey ev, now) :: alive }, [])
  else
    let seq := st.seq + 1
    let s := snapAdmission cmd ev st.snapOcc seq
    let c := clipAdmission cmd st.clipOcc seq
    ({ dedup := (dedupKey ev, now) :: alive, seq := seq,
       snapOcc := s.1, clipOcc := c.1 }, s.2 ++ c.2)

/-- One interleaving step of the loop and its job goroutines: an event
arrival handled by the loop body, or the deferred semaphore release
(`defer func() { <-snapSem }()` / `<-clipSem`) run when a job goroutine
completes — with either success or failure. -/
inductive Action
  | arrive (now : Nat) (ev : Event)
  | snapDone (success : Bool)
  | clipDone (success : Bool)
deriving DecidableEq

/-- State transition of one action. -/
def step (cmd : EventsCmd) (st : OrchState) : Action → OrchState × List Outcome
  | .arrive now ev => handleEvent cmd now st ev
  | .snapDone _ => ({ st with snapOcc := st.snapOcc - 1 }, [])
  | .clipDone _ => ({ st with clipOcc := st.clipOcc - 1 }, [])

/-- State after a trace of actions. -/
def runState (cmd : EventsCmd) (st : OrchState) : List Action → OrchState
  | [] => st
  | a :: rest => runState cmd (step cmd st a).1 rest

/-- Well-formed traces: arrival times are nondecreasing (`t` is the time of
the latest arrival so far), and a completion action only occurs while a job
of that kind is actually in flight. -/
def ValidB (cmd : EventsCmd) (st : OrchState) (t : Nat) : List Action → Bool
  | [] => true
  | .arrive now ev :: rest =>
    decide (t ≤ now) && ValidB cmd (handleEvent cmd now st ev).1 now rest
  | .snapDone _ :: rest =>
    decide (0 < st.snapOcc) && ValidB cmd { st with snapOcc := st.snapOcc - 1 } t rest
  | .clipDone _ :: rest =>
    decide (0 < st.clipOcc) && ValidB cmd { st with clipOcc := st.clipOcc - 1 } t rest

end Orchestrator

namespace Reassembler

/-- One transport (RTP) packet of a video stream, as the reassembler sees
it: fragment `idx` of the `total` fragments making up the access unit with
capture timestamp `ts`. -/
structure Packet where
  ts : Nat
  idx : Nat
  total : Nat
deriving DecidableEq

/-- A (possibly still incomplete) access unit buffered in the reorder
window: its timestamp, its fragment count, and the fragment indices
received so far. -/
structure AccessUnit where
  ts : Nat
  total : Nat
  got : List Nat
deriving DecidableEq

/-- An access unit is complete when all constituent fragments for its
timestamp have arrived. -/
def complete (u : AccessUnit) : Bool :=
  (List.range u.total).all fun i => u.got.contains i

/-- Modelled from the spec: `samplebuilder.New(maxLate, ...)` is called with
`maxLate = 128` by every `HandleVideoTrack` in `internal/recorder`; the
builder internals live in the third-party pion library, outside this
repository. -/
def maxLate : Nat := 128

/-- Modelled from the spec: file a fragment into the reorder buffer, kept
sorted by timestamp with one entry per timestamp (duplicate fragments are
filed once). -/
def insertPending (p : Packet) : List AccessUnit → List AccessUnit
  | [] => [⟨p.ts, p.total, [p.idx]⟩]
  | u :: rest =>
    if p.ts < u.ts then ⟨p.ts, p.total, [p.idx]⟩ :: u :: rest
    else if p.ts = u.ts then
      { u with got := if u.got.contains p.idx then u.got else p.idx :: u.got } :: rest
    else u :: insertPending p rest

/-- Modelled from the spec: resolve the oldest buffered units.  The oldest
unit is emitted once complete; while the buffer exceeds the reorder window
`W`, the oldest unresolved unit is discarded (never emitted malformed) and
the window advances past its timestamp; otherwise resolution stops.  Fuel
bounds the recursion by the buffer length.  Returns the advanced window
base, the remaining buffer, and the units emitted in order. -/
def resolveAux (W : Nat) : Nat → Nat → List AccessUnit → Nat × List AccessUnit × List AccessUnit
  | 0, base, pend => (base, pend, [])
  | _ + 1, base, [] => (base, [], [])
  | fuel + 1, base, u :: rest =>
    if complete u then
      let r := resolveAux W fuel (u.ts + 1) rest
      (r.1, r.2.1, u :: r.2.2)
    else if W < (u :: rest).length then
      resolveAux W fuel (u.ts + 1) rest
    else (base, u :: rest, [])

/-- Modelled from the spec: the reassembler state — the window base (all
timestamps below it are already resolved: emitted or discarded) and the
pending buffer. -/
structure RState where
  base : Nat
  pending : List AccessUnit
deriving DecidableEq

/-- Modelled from the spec: `builder.Push` followed by the drain of
`builder.Pop` — a packet older than the advanced window is dropped, a
current one is buffered, and all units resolvable afterwards are emitted in
timestamp order. -/
def push (W : Nat) (st : RState) (p : Packet) : RState × List AccessUnit :=
  if p.ts < st.base then (st, [])
  else
    let pend := insertPending p st.pending
    let r := resolveAux W pend.length st.base pend
    (⟨r.1, r.2.1⟩, r.2.2)

/-- What `H264Writer` accumulates: the frame counter and the access units
written to the file, in write order. -/
structure WriterState where
  frames : Nat
  written : List AccessUnit
deriving DecidableEq

/-- Embeds `H264Writer.HandleVideoTrack` (recorder.go lines 287-316): for
each packet read from the track, push it into the sample builder, then pop
every ready sample, writing each one and incrementing the frame counter. -/
def handleVideoTrack (st : RState) (w : WriterState) : List Packet → RState × WriterState
  | [] => (st, w)
  | pkt :: rest =>
    let r := push maxLate st pkt
    handleVideoTrack r.1 ⟨w.frames + r.2.length, w.written ++ r.2⟩ rest

end Reassembler

namespace SnapRecorder

/-- `filepath.Ext` on a reversed character list: the suffix up to and
including the first dot, empty when a path separator or the start of the
string comes first. -/
def extRev : List Char → List Char
  | [] => []
  | c :: rest =>
    if c = '.' then [c]
    else if c = '/' then []
    else
      match extRev rest with
      | [] => []
      | e => c :: e

/-- `filepath.Ext`: the file name extension, beginning at the final dot of
the final path element. -/
def filepathExt (p : String) : String := ⟨(extRev p.data.reverse).reverse⟩

/-- `strings.ToLower` (over the ASCII extensions involved). -/
def lowerStr (s : String) : String := ⟨s.data.map Char.toLower⟩

/-- `strings.TrimSuffix`. -/
def trimSuffix (s suf : String) : String :=
  if suf.data <:+ s.data then ⟨s.data.take (s.data.length - suf.data.length)⟩ else s

/-- `ext == ".jpg" || ext == ".jpeg"` on the lowercased extension
(recorder.go line 203). -/
def wantJPEG (outputPath : String) : Bool :=
  lowerStr (filepathExt outputPath) == ".jpg" || lowerStr (filepathExt outputPath) == ".jpeg"

/-- Observable result of a snapshot finalization: the error returned to the
caller, the artifact files left on disk (intermediate and final), and the
partial-success warning printed, if any. -/
structure SnapResult where
  err : Option String
  keptFiles : List String
  warning : Option String
deriving DecidableEq

/-- Embeds the finalization of the legacy WebM-based `TakeSnapshot`
(recorder.go lines 199-250, in particular 238-247), entered with the
recorded intermediate file on disk at `outputPath + ".tmp.webm"`.
`extractErr` is the outcome of the `ExtractSnapshot` ffmpeg subprocess.  On
failure for a JPEG target, the intermediate is renamed to the fallback name
`strings.TrimSuffix(outputPath, ext) + ".webm"`, a warning is printed, and
nil is returned; the deferred `os.Remove` then finds nothing to delete. -/
def takeSnapshotWebMFinal (outputPath : String) (extractErr : Option String) : SnapResult :=
  if wantJPEG outputPath then
    match extractErr with
    | some e =>
      let finalWebM := trimSuffix outputPath (filepathExt outputPath) ++ ".webm"
      { err := none, keptFiles := [finalWebM], warning := some e }
    | none => { err := none, keptFiles := [outputPath], warning := none }
  else
    { err := none, keptFiles := [outputPath], warning := none }

/-- Embeds the finalization of the current raw-H264 `TakeSnapshot`
(recorder.go lines 405-472 with `h264ToJPEG`/`h264ToWebM`), entered with
the recorded intermediate on disk at `outputPath + ".tmp.h264"`.
`convertErr` is the diagnostic output of the ffmpeg subprocess when it
exits non-zero.  On failure the wrapped error is returned and the deferred
`os.Remove(tmpH264)` deletes the intermediate: nothing is preserved and no
warning is printed. -/
def takeSnapshotH264Final (outputPath : String) (convertErr : Option String) : SnapResult :=
  let ext := lowerStr (filepathExt outputPath)
  if ext == ".webm" then
    match convertErr with
    | some out => { err := some ("ffmpeg conversion failed: " ++ out), keptFiles := [], warning := none }
    | none => { err := none, keptFiles := [outputPath], warning := none }
  else
    match convertErr with
    | some out => { err := some ("ffmpeg conversion failed: " ++ out), keptFiles := [], warning := none }
    | none => { err := none, keptFiles := [outputPath], warning := none }

end SnapRecorder

namespace ConfigPkg

/-- C10: When the configuration file does not exist, `Load` returns the
empty configuration and no error; a read failure of any other kind, a parse
failure, and a failure to determine the config directory are each returned
as errors. -/
theorem load_missing_file_yields_empty :
    (∀ (d : String) (parse : String → Except String Config),
       load (Except.ok d) ReadResult.notExist parse = Except.ok emptyConfig)
  ∧ (∀ (d e : String) (parse : String → Except String Config),
       load (Except.ok d) (ReadResult.readErr e) parse = Except.error e)
  ∧ (∀ (d data e : String) (parse : String → Except String Config),
       parse data = Except.error e →
       load (Except.ok d) (ReadResult.ok data) parse = Except.error e)
  ∧ (∀ (e : String) (read : ReadResult) (parse : String → Except String Config),
       load (Except.error e) read parse = Except.error e) := by
  refine ⟨fun d parse => rfl, fun d e parse => rfl, ?_, fun e read parse => rfl⟩
  intro d data e parse h
  simp [load, h]

/-- Witness for `load_missing_file_yields_empty` at concrete inputs. -/
theorem load_missing_file_yields_empty_witness :
    load (Except.ok "/home/u/.config/gognestcli") (ReadResult.ok "not json")
      (fun _ => Except.error "invalid character") = Except.error "invalid character" :=
  load_missing_file_yields_empty.2.2.1 "/home/u/.config/gognestcli" "not json"
    "invalid character" (fun _ => Except.error "invalid character") rfl

end ConfigPkg

namespace NestSession

/-- Every `Close` call on an already-closed session is a no-op: no effects,
no error, state unchanged. -/
theorem closeN_of_closed (pcErr : Bool) (s : Session) (h : s.closed = true) :
    ∀ n : Nat, closeN pcErr s n = (s, ⟨0, 0, 0⟩, List.replicate n false) := by
  intro n
  induction n with
  | zero => rfl
  | succ m ih =>
    have hcl : close pcErr s = (s, ⟨0, 0, 0⟩, false) := by
      simp [close, h]
    simp [closeN, hcl, ih, List.replicate_succ]

/-- C3: `Close` is idempotent.  For every `n ≥ 1`, calling `Close` `n`
times on a negotiated session (not yet closed, stop function set, media
session handle present) performs exactly one teardown call to the remote
stop API and exactly one release of the transport endpoint; every call
after the first returns without error, and the state after `n` calls is
the state after the first. -/
theorem close_idempotent (pcErr : Bool) (s : Session) (n : Nat)
    (hn : 1 ≤ n) (hc : s.closed = false) (hstop : s.stopSet = true)
    (hm : s.mediaSessionID ≠ "") :
    (closeN pcErr s n).2.1.stopCalls = 1
    ∧ (closeN pcErr s n).2.1.pcCloseCalls = 1
    ∧ (closeN pcErr s n).2.2 = pcErr :: List.replicate (n - 1) false
    ∧ (closeN pcErr s n).1 = (close pcErr s).1 := by
  obtain ⟨m, rfl⟩ : ∃ m, n = m + 1 := ⟨n - 1, by omega⟩
  have hcl : close pcErr s
      = ({ s with closed := true }, ⟨(if s.cancelSet then 1 else 0), 1, 1⟩, pcErr) := by
    simp [close, hc, hstop, hm]
  have hrest := closeN_of_closed pcErr { s with closed := true } rfl m
  simp [closeN, hcl, hrest]

/-- Witness for `close_idempotent`: three `Close` calls on a concrete
negotiated session. -/
theorem close_idempotent_witness :
    (closeN false ⟨false, true, true, true, "m1"⟩ 3).2.1.stopCalls = 1
    ∧ (closeN false ⟨false, true, true, true, "m1"⟩ 3).2.1.pcCloseCalls = 1
    ∧ (closeN false ⟨false, true, true, true, "m1"⟩ 3).2.2
        = false :: List.replicate 2 false
    ∧ (closeN false ⟨false, true, true, true, "m1"⟩ 3).1
        = (close false ⟨false, true, true, true, "m1"⟩).1 :=
  close_idempotent false ⟨false, true, true, true, "m1"⟩ 3 (by decide) rfl rfl (by decide)

/-- C9: calling `Close` on a session on which `SetAnswer` never ran (so the
cancel function, the stop function and the media session id are all unset)
is total and safe: the nil-guards ensure the unset cancel function is not
invoked and no remote stop call is made, while the session is still marked
closed and the transport endpoint is still released (exactly one
`pc.Close`), returning its result. -/
theorem close_before_answer_safe (pcErr : Bool) (s : Session)
    (hc : s.closed = false) (hcan : s.cancelSet = false)
    (hstop : s.stopSet = false) (hm : s.mediaSessionID = "") :
    close pcErr s = ({ s with closed := true }, ⟨0, 0, 1⟩, pcErr) := by
  simp [close, hc, hcan, hstop, hm]

/-- Witness for `close_before_answer_safe` on a concrete fresh session. -/
theorem close_before_answer_safe_witness :
    close true ⟨false, false, false, false, ""⟩
      = (⟨true, false, false, false, ""⟩, ⟨0, 0, 1⟩, true) :=
  close_before_answer_safe true ⟨false, false, false, false, ""⟩ rfl rfl rfl rfl

/-- C4: extension failures are non-fatal.  Over any run of ticker firings
with no cancellation, the extension loop of a negotiated session attempts
the extend call on every tick, turns each error into exactly one logged
warning, never stops, and leaves the session value untouched; only a
context cancellation (from `Close`) makes the loop return.  Ticks are the
firings of the 4-minute (240 s) ticker, so after a failed attempt at tick
`i` the next attempt still occurs at tick `i + 1`, one interval later. -/
theorem extend_errors_nonfatal (s : Session) (evs : List ExtendEvent)
    (hset : s.extendSet = true) (hm : s.mediaSessionID ≠ "")
    (hnc : ExtendEvent.cancelled ∉ evs) :
    (extendLoopRun s evs).1 = s
    ∧ (extendLoopRun s evs).2.stopped = false
    ∧ (extendLoopRun s evs).2.served = evs.length
    ∧ (extendLoopRun s evs).2.attempts = evs.length
    ∧ (extendLoopRun s evs).2.warnings
        = (evs.filter fun e => match e with | .tick (some _) => true | _ => false).length
    ∧ (∀ rest : List ExtendEvent,
        (extendLoopRun s (ExtendEvent.cancelled :: rest)).2.stopped = true)
    ∧ extendInterval = 4 * 60
    ∧ (∀ i : Nat, extendTickTime (i + 1) = extendTickTime i + extendInterval) := by
  have hcond : (s.extendSet = true ∧ s.mediaSessionID ≠ "") := ⟨hset, hm⟩
  have main : ∀ l : List ExtendEvent, ExtendEvent.cancelled ∉ l →
      (extendLoopRun s l).1 = s
      ∧ (extendLoopRun s l).2.stopped = false
      ∧ (extendLoopRun s l).2.served = l.length
      ∧ (extendLoopRun s l).2.attempts = l.length
      ∧ (extendLoopRun s l).2.warnings
          = (l.filter fun e => match e with | .tick (some _) => true | _ => false).length := by
    intro l
    induction l with
    | nil => intro _; exact ⟨rfl, rfl, rfl, rfl, rfl⟩
    | cons a rest ih =>
      intro hmem
      have ha : a ≠ ExtendEvent.cancelled := fun h => hmem (h ▸ List.mem_cons_self a rest)
      have hrest : ExtendEvent.cancelled ∉ rest := fun h => hmem (List.mem_cons_of_mem a h)
      obtain ⟨err, rfl⟩ : ∃ e, a = ExtendEvent.tick e := by
        cases a with
        | cancelled => exact absurd rfl ha
        | tick e => exact ⟨e, rfl⟩
      obtain ⟨ih1, ih2, ih3, ih4, ih5⟩ := ih hrest
      cases err with
      | none =>
        simp [extendLoopRun, hcond, ih1, ih2, ih3, ih4, ih5]
      | some e =>
        simp [extendLoopRun, hcond, ih1, ih2, ih3, ih4, ih5]
  obtain ⟨h1, h2, h3, h4, h5⟩ := main evs hnc
  refine ⟨h1, h2, h3, h4, h5, fun rest => rfl, rfl, fun i => ?_⟩
  simp [extendTickTime, extendInterval]
  ring

/-- Witness for `extend_errors_nonfatal`: two failing ticks around a
successful one, on a concrete negotiated session. -/
theorem extend_errors_nonfatal_witness :
    (extendLoopRun ⟨false, true, true, true, "m1"⟩
        [.tick (some "deadline exceeded"), .tick none, .tick (some "500")]).1
      = ⟨false, true, true, true, "m1"⟩
    ∧ (extendLoopRun ⟨false, true, true, true, "m1"⟩
        [.tick (some "deadline exceeded"), .tick none, .tick (some "500")]).2.stopped = false
    ∧ (extendLoopRun ⟨false, true, true, true, "m1"⟩
        [.tick (some "deadline exceeded"), .tick none, .tick (some "500")]).2.served = 3
    ∧ (extendLoopRun ⟨false, true, true, true, "m1"⟩
        [.tick (some "deadline exceeded"), .tick none, .tick (some "500")]).2.attempts = 3
    ∧ (extendLoopRun ⟨false, true, true, true, "m1"⟩
        [.tick (some "deadline exceeded"), .tick none, .tick (some "500")]).2.warnings = 2 := by
  have h := extend_errors_nonfatal ⟨false, true, true, true, "m1"⟩
    [.tick (some "deadline exceeded"), .tick none, .tick (some "500")]
    rfl (by decide) (by decide)
  exact ⟨h.1, h.2.1, h.2.2.1.trans (by decide), h.2.2.2.1.trans (by decide),
    h.2.2.2.2.1.trans (by decide)⟩

end NestSession

namespace NestSession

/-- Once the one-shot has run, no later state-change notification signals
again, whatever states the connection oscillates through. -/
theorem iceSignals_after_fired (l : List ICEState) :
    iceSignals true l = List.replicate l.length false := by
  induction l with
  | nil => rfl
  | cons st rest ih =>
    have h : onICEStateChange true st = (true, false) := by
      simp [onICEStateChange]
    simp [iceSignals, h, ih, List.replicate_succ]

/-- C5: the `Connected` one-shot fires exactly once.  For every sequence of
ICE connection-state notifications, the number of times the handler closes
the `Connected` channel is one if the connected state is ever entered and
zero otherwise; and on a sequence whose first entry into the connected
state happens after `pre`, the signal fires exactly at that notification
and at no other, however often the state re-enters connected afterwards. -/
theorem connected_signaled_once :
    (∀ states : List ICEState,
       (iceSignals false states).count true
         = if ICEState.connected ∈ states then 1 else 0)
  ∧ (∀ pre post : List ICEState, ICEState.connected ∉ pre →
       iceSignals false (pre ++ ICEState.connected :: post)
         = List.replicate pre.length false
             ++ true :: List.replicate post.length false) := by
  constructor
  · intro states
    induction states with
    | nil => rfl
    | cons st rest ih =>
      by_cases h : st = ICEState.connected
      · subst h
        have hstep : onICEStateChange false ICEState.connected = (true, true) := by
          simp [onICEStateChange]
        simp [iceSignals, hstep, iceSignals_after_fired, List.count_replicate]
      · have hstep : onICEStateChange false st = (false, false) := by
          simp [onICEStateChange, h]
        have h2 : ¬ICEState.connected = st := fun hh => h hh.symm
        simp [iceSignals, hstep, ih, h2]
  · intro pre post hpre
    induction pre with
    | nil =>
      have hstep : onICEStateChange false ICEState.connected = (true, true) := by
        simp [onICEStateChange]
      simp [iceSignals, hstep, iceSignals_after_fired]
    | cons st rest ih =>
      have hst : st ≠ ICEState.connected := fun h => hpre (h ▸ List.mem_cons_self st rest)
      have hrest : ICEState.connected ∉ rest := fun h => hpre (List.mem_cons_of_mem st h)
      have hstep : onICEStateChange false st = (false, false) := by
        simp [onICEStateChange, hst]
      simp [iceSignals, hstep, ih hrest, List.replicate_succ]

/-- Witness for `connected_signaled_once`: the state oscillates and enters
connected twice; the one-shot fires exactly at the first entry. -/
theorem connected_signaled_once_witness :
    (iceSignals false
        [ICEState.checking, ICEState.connected, ICEState.disconnected,
         ICEState.connected]).count true = 1
    ∧ iceSignals false
        ([ICEState.checking] ++ ICEState.connected
          :: [ICEState.disconnected, ICEState.connected])
        = List.replicate 1 false ++ true :: List.replicate 2 false :=
  ⟨(connected_signaled_once.1
      [ICEState.checking, ICEState.connected, ICEState.disconnected,
       ICEState.connected]).trans (by decide),
   connected_signaled_once.2 [ICEState.checking]
     [ICEState.disconnected, ICEState.connected] (by decide)⟩

/-- C7: on every 2-second tick of the keyframe-request loop, exactly one
picture-loss-indication is sent per active inbound video stream, carrying
that stream's SSRC; audio streams and receivers without a track contribute
nothing.  The loop serves every tick until the session context is
cancelled (at `Close`) and stops at cancellation. -/
theorem pli_videos_only :
    (∀ (rs₁ rs₂ : List (Option Track)) (t : Track), t.kind = TrackKind.video →
       pliTick (rs₁ ++ some t :: rs₂) = pliTick rs₁ ++ ⟨t.ssrc⟩ :: pliTick rs₂)
  ∧ (∀ (rs₁ rs₂ : List (Option Track)) (t : Track), t.kind = TrackKind.audio →
       pliTick (rs₁ ++ some t :: rs₂) = pliTick (rs₁ ++ rs₂))
  ∧ (∀ rs₁ rs₂ : List (Option Track),
       pliTick (rs₁ ++ none :: rs₂) = pliTick (rs₁ ++ rs₂))
  ∧ (∀ ticks : List (List (Option Track)),
       pliLoopRun (ticks.map PliEvent.tick) = ticks.map pliTick)
  ∧ (∀ rest : List PliEvent, pliLoopRun (PliEvent.cancelled :: rest) = [])
  ∧ pliInterval = 2 := by
  refine ⟨?_, ?_, ?_, ?_, fun rest => rfl, rfl⟩
  · intro rs₁ rs₂ t ht
    simp [pliTick, List.filterMap_append, List.filterMap_cons, ht]
  · intro rs₁ rs₂ t ht
    simp [pliTick, List.filterMap_append, List.filterMap_cons, ht]
  · intro rs₁ rs₂
    simp [pliTick, List.filterMap_append, List.filterMap_cons]
  · intro ticks
    induction ticks with
    | nil => rfl
    | cons rs rest ih => simp [pliLoopRun, ih]

/-- Witness for `pli_videos_only`: a tick over an audio receiver, a video
receiver with SSRC 7 and a track-less receiver sends exactly one PLI, for
the video SSRC. -/
theorem pli_videos_only_witness :
    pliTick [some ⟨TrackKind.audio, 5⟩, some ⟨TrackKind.video, 7⟩, none]
      = [⟨7⟩] :=
  (pli_videos_only.1 [some ⟨TrackKind.audio, 5⟩] [none] ⟨TrackKind.video, 7⟩
    rfl).trans (by decide)

end NestSession

namespace Orchestrator

/-- An admission on a slot holding at most one job keeps it at most one. -/
theorem snapAdmission_le_one (cmd : EventsCmd) (ev : Event) (occ : Nat) (q : Int)
    (h : occ ≤ 1) : (snapAdmission cmd ev occ q).1 ≤ 1 := by
  unfold snapAdmission
  split
  · split <;> omega
  · exact h

/-- An admission on a slot holding at most one job keeps it at most one. -/
theorem clipAdmission_le_one (cmd : EventsCmd) (occ : Nat) (q : Int)
    (h : occ ≤ 1) : (clipAdmission cmd occ q).1 ≤ 1 := by
  unfold clipAdmission
  split
  · split <;> omega
  · exact h

/-- The handler preserves the slot bounds. -/
theorem handleEvent_occ_le (cmd : EventsCmd) (now : Nat) (st : OrchState) (ev : Event)
    (hs : st.snapOcc ≤ 1) (hc : st.clipOcc ≤ 1) :
    (handleEvent cmd now st ev).1.snapOcc ≤ 1 ∧ (handleEvent cmd now st ev).1.clipOcc ≤ 1 := by
  by_cases h1 : (List.find? (fun e => e.1 == dedupKey ev) (aliveEntries now st.dedup)).isSome = true
  · simp [handleEvent, h1]
    exact ⟨hs, hc⟩
  · by_cases h2 : isActionableEvent ev.eventType = false
    · simp [handleEvent, h1, h2]
      exact ⟨hs, hc⟩
    · simp [handleEvent, h1, h2]
      exact ⟨snapAdmission_le_one cmd ev st.snapOcc (st.seq + 1) hs,
        clipAdmission_le_one cmd st.clipOcc (st.seq + 1) hc⟩

/-- Every step of the loop preserves the slot bounds. -/
theorem step_occ_le (cmd : EventsCmd) (st : OrchState) (a : Action)
    (hs : st.snapOcc ≤ 1) (hc : st.clipOcc ≤ 1) :
    (step cmd st a).1.snapOcc ≤ 1 ∧ (step cmd st a).1.clipOcc ≤ 1 := by
  cases a with
  | arrive now ev => exact handleEvent_occ_le cmd now st ev hs hc
  | snapDone b => exact ⟨by simp [step]; omega, by simp [step]; exact hc⟩
  | clipDone b => exact ⟨by simp [step]; exact hs, by simp [step]; omega⟩

/-- The slot bounds hold after any trace from any state satisfying them. -/
theorem runState_occ_le (cmd : EventsCmd) (acts : List Action) :
    ∀ st : OrchState, st.snapOcc ≤ 1 → st.clipOcc ≤ 1 →
      (runState cmd st acts).snapOcc ≤ 1 ∧ (runState cmd st acts).clipOcc ≤ 1 := by
  induction acts with
  | nil => intro st hs hc; exact ⟨hs, hc⟩
  | cons a rest ih =>
    intro st hs hc
    obtain ⟨h1, h2⟩ := step_occ_le cmd st a hs hc
    exact ih (step cmd st a).1 h1 h2

/-- The clip admission produces only clip outcomes. -/
theorem clipAdmission_outcomes (cmd : EventsCmd) (occ : Nat) (q : Int) :
    ∀ o ∈ (clipAdmission cmd occ q).2, o = Outcome.clipStarted q ∨ o = Outcome.clipSkipped := by
  unfold clipAdmission
  split
  · split <;> simp
  · simp

/-- The snapshot admission produces only snapshot outcomes. -/
theorem snapAdmission_outcomes (cmd : EventsCmd) (ev : Event) (occ : Nat) (q : Int) :
    ∀ o ∈ (snapAdmission cmd ev occ q).2, o = Outcome.snapStarted q ∨ o = Outcome.snapSkipped := by
  unfold snapAdmission
  split
  · split <;> simp
  · simp

end Orchestrator

namespace Orchestrator

/-- C1: bounded, independent admission.  (1) After any interleaving of
event arrivals and job completions from the initial state, at most one
snapshot job and at most one clip job are in flight — so this holds at
every instant of the loop.  (2) A fresh, actionable event that attempts
snapshot admission while the snapshot slot is held is rejected with the
explicit skip outcome, no snapshot job starts, and the slot occupancy is
unchanged (nothing is queued); independently, a free clip slot still admits
the clip job of the same event.  (3) Symmetrically for the clip slot.
(4) A completing job releases its slot whether it succeeded or failed, and
only its own slot. -/
theorem admission_slots (cmd : EventsCmd) :
    (∀ acts : List Action,
       (runState cmd initState acts).snapOcc ≤ 1
       ∧ (runState cmd initState acts).clipOcc ≤ 1)
  ∧ (∀ (now : Nat) (st : OrchState) (ev : Event),
       (List.find? (fun e => e.1 == dedupKey ev) (aliveEntries now st.dedup)).isSome = false →
       isActionableEvent ev.eventType = true →
       cmd.capture = true → ev.eventID ≠ "" → st.snapOcc = 1 →
         (handleEvent cmd now st ev).1.snapOcc = 1
         ∧ Outcome.snapSkipped ∈ (handleEvent cmd now st ev).2
         ∧ (∀ q : Int, Outcome.snapStarted q ∉ (handleEvent cmd now st ev).2)
         ∧ (cmd.clip = true → st.clipOcc = 0 →
             (handleEvent cmd now st ev).1.clipOcc = 1
             ∧ Outcome.clipStarted (st.seq + 1) ∈ (handleEvent cmd now st ev).2))
  ∧ (∀ (now : Nat) (st : OrchState) (ev : Event),
       (List.find? (fun e => e.1 == dedupKey ev) (aliveEntries now st.dedup)).isSome = false →
       isActionableEvent ev.eventType = true →
       cmd.clip = true → st.clipOcc = 1 →
         (handleEvent cmd now st ev).1.clipOcc = 1
         ∧ Outcome.clipSkipped ∈ (handleEvent cmd now st ev).2
         ∧ (∀ q : Int, Outcome.clipStarted q ∉ (handleEvent cmd now st ev).2)
         ∧ (cmd.capture = true → ev.eventID ≠ "" → st.snapOcc = 0 →
             (handleEvent cmd now st ev).1.snapOcc = 1
             ∧ Outcome.snapStarted (st.seq + 1) ∈ (handleEvent cmd now st ev).2))
  ∧ (∀ (st : OrchState) (b : Bool),
       step cmd st (Action.snapDone b) = ({ st with snapOcc := st.snapOcc - 1 }, [])
       ∧ step cmd st (Action.clipDone b) = ({ st with clipOcc := st.clipOcc - 1 }, [])) := by
  refine ⟨?_, ?_, ?_, fun st b => ⟨rfl, rfl⟩⟩
  · intro acts
    exact runState_occ_le cmd acts initState (by simp [initState]) (by simp [initState])
  · intro now st ev hfresh hact hcap hid hocc
    have hsnap : snapAdmission cmd ev st.snapOcc (st.seq + 1)
        = (1, [Outcome.snapSkipped]) := by
      simp [snapAdmission, hcap, hid, hocc]
    refine ⟨?_, ?_, ?_, ?_⟩
    · simp [handleEvent, hfresh, hact, hsnap]
    · simp [handleEvent, hfresh, hact, hsnap]
    · intro q hq
      simp [handleEvent, hfresh, hact, hsnap] at hq
      rcases clipAdmission_outcomes cmd st.clipOcc (st.seq + 1) _ hq with h | h <;> cases h
    · intro hclip hc0
      have hclipadm : clipAdmission cmd st.clipOcc (st.seq + 1)
          = (1, [Outcome.clipStarted (st.seq + 1)]) := by
        simp [clipAdmission, hclip, hc0]
      constructor
      · simp [handleEvent, hfresh, hact, hclipadm]
      · simp [handleEvent, hfresh, hact, hclipadm]
  · intro now st ev hfresh hact hclip hocc
    have hclipadm : clipAdmission cmd st.clipOcc (st.seq + 1)
        = (1, [Outcome.clipSkipped]) := by
      simp [clipAdmission, hclip, hocc]
    refine ⟨?_, ?_, ?_, ?_⟩
    · simp [handleEvent, hfresh, hact, hclipadm]
    · simp [handleEvent, hfresh, hact, hclipadm]
    · intro q hq
      simp [handleEvent, hfresh, hact, hclipadm] at hq
      rcases snapAdmission_outcomes cmd ev st.snapOcc (st.seq + 1) _ hq with h | h <;> cases h
    · intro hcap hid hs0
      have hsnap : snapAdmission cmd ev st.snapOcc (st.seq + 1)
          = (1, [Outcome.snapStarted (st.seq + 1)]) := by
        simp [snapAdmission, hcap, hid, hs0]
      constructor
      · simp [handleEvent, hfresh, hact, hsnap]
      · simp [handleEvent, hfresh, hact, hsnap]

end Orchestrator

namespace Orchestrator

/-- Witness for `admission_slots`: a concrete trace keeps both slots at
occupancy at most one, and a concrete fresh motion event arriving with the
snapshot slot held is skipped while its clip still starts. -/
theorem admission_slots_witness :
    ((runState ⟨true, true⟩ initState
        [Action.arrive 0 ⟨"d", "CameraMotion.Motion", "id1", 5⟩,
         Action.arrive 1 ⟨"d", "CameraPerson.Person", "id2", 6⟩,
         Action.snapDone true,
         Action.arrive 2 ⟨"d", "CameraMotion.Motion", "id3", 7⟩]).snapOcc ≤ 1
      ∧ (runState ⟨true, true⟩ initState
        [Action.arrive 0 ⟨"d", "CameraMotion.Motion", "id1", 5⟩,
         Action.arrive 1 ⟨"d", "CameraPerson.Person", "id2", 6⟩,
         Action.snapDone true,
         Action.arrive 2 ⟨"d", "CameraMotion.Motion", "id3", 7⟩]).clipOcc ≤ 1)
    ∧ ((handleEvent ⟨true, true⟩ 10 ⟨[], 0, 1, 0⟩ ⟨"d", "CameraMotion.Motion", "id9", 9⟩).1.snapOcc = 1
      ∧ Outcome.snapSkipped
          ∈ (handleEvent ⟨true, true⟩ 10 ⟨[], 0, 1, 0⟩ ⟨"d", "CameraMotion.Motion", "id9", 9⟩).2
      ∧ (∀ q : Int, Outcome.snapStarted q
          ∉ (handleEvent ⟨true, true⟩ 10 ⟨[], 0, 1, 0⟩ ⟨"d", "CameraMotion.Motion", "id9", 9⟩).2)
      ∧ (EventsCmd.clip ⟨true, true⟩ = true → OrchState.clipOcc ⟨[], 0, 1, 0⟩ = 0 →
          (handleEvent ⟨true, true⟩ 10 ⟨[], 0, 1, 0⟩ ⟨"d", "CameraMotion.Motion", "id9", 9⟩).1.clipOcc = 1
          ∧ Outcome.clipStarted (OrchState.seq ⟨[], 0, 1, 0⟩ + 1)
              ∈ (handleEvent ⟨true, true⟩ 10 ⟨[], 0, 1, 0⟩ ⟨"d", "CameraMotion.Motion", "id9", 9⟩).2)) :=
  ⟨(admission_slots ⟨true, true⟩).1
      [Action.arrive 0 ⟨"d", "CameraMotion.Motion", "id1", 5⟩,
       Action.arrive 1 ⟨"d", "CameraPerson.Person", "id2", 6⟩,
       Action.snapDone true,
       Action.arrive 2 ⟨"d", "CameraMotion.Motion", "id3", 7⟩],
   (admission_slots ⟨true, true⟩).2.1 10 ⟨[], 0, 1, 0⟩
     ⟨"d", "CameraMotion.Motion", "id9", 9⟩
     (by decide) (by decide) rfl (by decide) rfl⟩

/-- A table entry younger than the dedup window survives the eviction
filter. -/
theorem mem_aliveEntries (k : String) (r now : Nat) (tbl : List (String × Nat))
    (hmem : (k, r) ∈ tbl) (hlt : now < r + dedupWindow) :
    (k, r) ∈ aliveEntries now tbl := by
  refine List.mem_filter.mpr ⟨hmem, ?_⟩
  simpa using hlt

/-- The handler never removes a live dedup entry. -/
theorem handleEvent_dedup_mem (cmd : EventsCmd) (now : Nat) (st : OrchState)
    (ev : Event) (k : String) (r : Nat)
    (hmem : (k, r) ∈ st.dedup) (hlt : now < r + dedupWindow) :
    (k, r) ∈ (handleEvent cmd now st ev).1.dedup := by
  have hal := mem_aliveEntries k r now st.dedup hmem hlt
  by_cases h1 : (List.find? (fun e => e.1 == dedupKey ev) (aliveEntries now st.dedup)).isSome = true
  · simp [handleEvent, h1, hal]
  · by_cases h2 : isActionableEvent ev.eventType = false
    · simp [handleEvent, h1, h2]
      exact Or.inr hal
    · simp [handleEvent, h1, h2]
      exact Or.inr hal

/-- In a well-formed trace ending with an arrival at time `t2`, the latest
arrival time underestimates `t2`. -/
theorem ValidB_last_time (cmd : EventsCmd) (t2 : Nat) (e2 : Event) :
    ∀ (acts : List Action) (st : OrchState) (t : Nat),
      ValidB cmd st t (acts ++ [Action.arrive t2 e2]) = true → t ≤ t2 := by
  intro acts
  induction acts with
  | nil =>
    intro st t hv
    simp only [List.nil_append, ValidB, Bool.and_eq_true, decide_eq_true_eq] at hv
    exact hv.1
  | cons a rest ih =>
    intro st t hv
    cases a with
    | arrive now ev =>
      simp only [List.cons_append, ValidB, Bool.and_eq_true, decide_eq_true_eq] at hv
      exact le_trans hv.1 (ih _ _ hv.2)
    | snapDone b =>
      simp only [List.cons_append, ValidB, Bool.and_eq_true, decide_eq_true_eq] at hv
      exact ih _ _ hv.2
    | clipDone b =>
      simp only [List.cons_append, ValidB, Bool.and_eq_true, decide_eq_true_eq] at hv
      exact ih _ _ hv.2

/-- A dedup entry whose window still covers the final arrival time survives
every intermediate step of a well-formed trace. -/
theorem runState_dedup_persist (cmd : EventsCmd) (t2 : Nat) (e2 : Event)
    (k : String) (r : Nat) (hwin : t2 < r + dedupWindow) :
    ∀ (acts : List Action) (st : OrchState) (t : Nat),
      ValidB cmd st t (acts ++ [Action.arrive t2 e2]) = true →
      (k, r) ∈ st.dedup →
      (k, r) ∈ (runState cmd st acts).dedup := by
  intro acts
  induction acts with
  | nil =>
    intro st t _ hmem
    exact hmem
  | cons a rest ih =>
    intro st t hv hmem
    cases a with
    | arrive now ev =>
      simp only [List.cons_append, ValidB, Bool.and_eq_true, decide_eq_true_eq] at hv
      have hnow : now ≤ t2 := ValidB_last_time cmd t2 e2 rest _ now hv.2
      have hmem2 := handleEvent_dedup_mem cmd now st ev k r hmem (by omega)
      simpa [runState, step] using ih _ now hv.2 hmem2
    | snapDone b =>
      simp only [List.cons_append, ValidB, Bool.and_eq_true, decide_eq_true_eq] at hv
      simpa [runState, step] using ih _ t hv.2 hmem
    | clipDone b =>
      simp only [List.cons_append, ValidB, Bool.and_eq_true, decide_eq_true_eq] at hv
      simpa [runState, step] using ih _ t hv.2 hmem

end Orchestrator

namespace Orchestrator

/-- A lookup hit in the dedup table discards the event: no outcome, and no
state change beyond dropping expired entries. -/
theorem handleEvent_duplicate (cmd : EventsCmd) (now : Nat) (st : OrchState)
    (ev : Event)
    (h : (List.find? (fun e => e.1 == dedupKey ev)
        (aliveEntries now st.dedup)).isSome = true) :
    handleEvent cmd now st ev = ({ st with dedup := aliveEntries now st.dedup }, []) := by
  simp [handleEvent, h]

/-- C2: deduplication over the 60 s window.  If an event `e1` with a fresh
`(timestamp, event kind)` key is handled at time `t1`, then (a) its key is
recorded in the dedup table at time `t1`; (b) after any well-formed
continuation of the loop, a second event `e2` carrying the identical key
and arriving at `t2` within 60 s of `t1` is discarded with no action — the
handler emits no outcome (so no capture job is dispatched for it) and
changes nothing beyond dropping expired entries; and (c) an entry recorded
at time `r` is evicted from the table once 60 s have elapsed: it is absent
from every lookup at any time `u ≥ r + 60`. -/
theorem dedup_discards_within_window (cmd : EventsCmd) (st : OrchState)
    (t1 t2 : Nat) (e1 e2 : Event) (mid : List Action)
    (hkey : dedupKey e2 = dedupKey e1)
    (hfresh : (List.find? (fun e => e.1 == dedupKey e1)
        (aliveEntries t1 st.dedup)).isSome = false)
    (hv : ValidB cmd (handleEvent cmd t1 st e1).1 t1
        (mid ++ [Action.arrive t2 e2]) = true)
    (hwin : t2 < t1 + dedupWindow) :
    (dedupKey e1, t1) ∈ (handleEvent cmd t1 st e1).1.dedup
    ∧ (handleEvent cmd t2 (runState cmd (handleEvent cmd t1 st e1).1 mid) e2).2 = []
    ∧ (handleEvent cmd t2 (runState cmd (handleEvent cmd t1 st e1).1 mid) e2).1
        = { runState cmd (handleEvent cmd t1 st e1).1 mid with
            dedup := aliveEntries t2
              (runState cmd (handleEvent cmd t1 st e1).1 mid).dedup }
    ∧ (∀ (k : String) (r u : Nat) (tbl : List (String × Nat)),
        r + dedupWindow ≤ u → (k, r) ∉ aliveEntries u tbl) := by
  have hfresh' : ¬(List.find? (fun e => e.1 == dedupKey e1)
      (aliveEntries t1 st.dedup)).isSome = true := by
    simp [hfresh]
  have hrec : (dedupKey e1, t1) ∈ (handleEvent cmd t1 st e1).1.dedup := by
    by_cases h2 : isActionableEvent e1.eventType = false
    · simp [handleEvent, hfresh', h2]
    · simp [handleEvent, hfresh', h2]
  have hmem2 : (dedupKey e1, t1)
      ∈ (runState cmd (handleEvent cmd t1 st e1).1 mid).dedup :=
    runState_dedup_persist cmd t2 e2 (dedupKey e1) t1 hwin mid
      (handleEvent cmd t1 st e1).1 t1 hv hrec
  have halive : (dedupKey e1, t1)
      ∈ aliveEntries t2 (runState cmd (handleEvent cmd t1 st e1).1 mid).dedup :=
    mem_aliveEntries (dedupKey e1) t1 t2 _ hmem2 hwin
  have hfound : (List.find? (fun e => e.1 == dedupKey e2)
      (aliveEntries t2 (runState cmd (handleEvent cmd t1 st e1).1 mid).dedup)).isSome
        = true := by
    refine List.find?_isSome.mpr ⟨(dedupKey e1, t1), halive, ?_⟩
    simp [hkey]
  refine ⟨hrec, ?_, ?_, ?_⟩
  · rw [handleEvent_duplicate cmd t2 _ e2 hfound]
  · rw [handleEvent_duplicate cmd t2 _ e2 hfound]
  · intro k r u tbl hle
    simp only [aliveEntries, List.mem_filter, decide_eq_true_eq, not_and]
    intro _
    omega

/-- Witness for `dedup_discards_within_window`: two motion events with the
identical `(timestamp, kind)` key, 30 s apart; the first is recorded and
the second discarded with no outcome. -/
theorem dedup_discards_within_window_witness :
    (dedupKey ⟨"d", "CameraMotion.Motion", "id1", 5⟩, 0)
      ∈ (handleEvent ⟨true, false⟩ 0 initState ⟨"d", "CameraMotion.Motion", "id1", 5⟩).1.dedup
    ∧ (handleEvent ⟨true, false⟩ 30
        (runState ⟨true, false⟩
          (handleEvent ⟨true, false⟩ 0 initState ⟨"d", "CameraMotion.Motion", "id1", 5⟩).1
          [Action.snapDone true])
        ⟨"d", "CameraMotion.Motion", "id2", 5⟩).2 = []
    ∧ (handleEvent ⟨true, false⟩ 30
        (runState ⟨true, false⟩
          (handleEvent ⟨true, false⟩ 0 initState ⟨"d", "CameraMotion.Motion", "id1", 5⟩).1
          [Action.snapDone true])
        ⟨"d", "CameraMotion.Motion", "id2", 5⟩).1
        = { runState ⟨true, false⟩
              (handleEvent ⟨true, false⟩ 0 initState ⟨"d", "CameraMotion.Motion", "id1", 5⟩).1
              [Action.snapDone true] with
            dedup := aliveEntries 30
              (runState ⟨true, false⟩
                (handleEvent ⟨true, false⟩ 0 initState ⟨"d", "CameraMotion.Motion", "id1", 5⟩).1
                [Action.snapDone true]).dedup }
    ∧ (∀ (k : String) (r u : Nat) (tbl : List (String × Nat)),
        r + dedupWindow ≤ u → (k, r) ∉ aliveEntries u tbl) :=
  dedup_discards_within_window ⟨true, false⟩ initState 0 30
    ⟨"d", "CameraMotion.Motion", "id1", 5⟩ ⟨"d", "CameraMotion.Motion", "id2", 5⟩
    [Action.snapDone true] rfl (by decide) (by decide) (by decide)

end Orchestrator

namespace Reassembler

/-- Filing a fragment only creates or updates entries at existing
timestamps or at the packet's own timestamp. -/
theorem mem_insertPending_ts (p : Packet) :
    ∀ (pend : List AccessUnit) (x : AccessUnit), x ∈ insertPending p pend →
      x.ts = p.ts ∨ ∃ y ∈ pend, x.ts = y.ts := by
  intro pend
  induction pend with
  | nil =>
    intro x hx
    simp [insertPending] at hx
    simp [hx]
  | cons u rest ih =>
    intro x hx
    by_cases h1 : p.ts < u.ts
    · simp [insertPending, h1] at hx
      rcases hx with hx | hx | hx
      · simp [hx]
      · exact Or.inr ⟨u, List.mem_cons_self u rest, by simp [hx]⟩
      · exact Or.inr ⟨x, List.mem_cons_of_mem u hx, rfl⟩
    · by_cases h2 : p.ts = u.ts
      · simp [insertPending, h1, h2] at hx
        rcases hx with hx | hx
        · exact Or.inr ⟨u, List.mem_cons_self u rest, by simp [hx]⟩
        · exact Or.inr ⟨x, List.mem_cons_of_mem u hx, rfl⟩
      · simp [insertPending, h1, h2] at hx
        rcases hx with hx | hx
        · exact Or.inr ⟨u, List.mem_cons_self u rest, by simp [hx]⟩
        · rcases ih x hx with h | ⟨y, hy, hxy⟩
          · exact Or.inl h
          · exact Or.inr ⟨y, List.mem_cons_of_mem u hy, hxy⟩

/-- Filing a fragment keeps the buffer sorted by strictly increasing
timestamp. -/
theorem insertPending_pairwise (p : Packet) :
    ∀ pend : List AccessUnit,
      List.Pairwise (fun a b : AccessUnit => a.ts < b.ts) pend →
      List.Pairwise (fun a b : AccessUnit => a.ts < b.ts) (insertPending p pend) := by
  intro pend
  induction pend with
  | nil =>
    intro _
    simp [insertPending]
  | cons u rest ih =>
    intro hp
    obtain ⟨hhead, htail⟩ := List.pairwise_cons.mp hp
    by_cases h1 : p.ts < u.ts
    · simp only [insertPending, h1, if_true]
      refine List.pairwise_cons.mpr ⟨?_, hp⟩
      intro x hx
      rcases List.mem_cons.mp hx with hx | hx
      · simpa [hx] using h1
      · exact lt_trans h1 (hhead x hx)
    · by_cases h2 : p.ts = u.ts
      · simp only [insertPending]
        rw [if_neg h1, if_pos h2]
        exact List.pairwise_cons.mpr ⟨fun x hx => hhead x hx, htail⟩
      · simp only [insertPending, h1, if_false, h2]
        refine List.pairwise_cons.mpr ⟨?_, ih htail⟩
        intro x hx
        rcases mem_insertPending_ts p rest x hx with h | ⟨y, hy, hxy⟩
        · omega
        · rw [hxy]; exact hhead y hy
  
/-- Filing a fragment at or above the window base keeps all buffered
timestamps at or above the base. -/
theorem insertPending_lb (p : Packet) (base : Nat) (pend : List AccessUnit)
    (hlb : ∀ u ∈ pend, base ≤ u.ts) (hp : base ≤ p.ts) :
    ∀ x ∈ insertPending p pend, base ≤ x.ts := by
  intro x hx
  rcases mem_insertPending_ts p pend x hx with h | ⟨y, hy, hxy⟩
  · omega
  · rw [hxy]; exact hlb y hy

/-- Resolution of the reorder buffer: from a sorted buffer bounded below by
the base, resolution advances the base monotonically, keeps the remaining
buffer sorted and bounded by the new base, and emits only complete units,
with strictly increasing timestamps, all within `[base, base')`. -/
theorem resolveAux_spec (W : Nat) :
    ∀ (fuel base : Nat) (pend : List AccessUnit),
      List.Pairwise (fun a b : AccessUnit => a.ts < b.ts) pend →
      (∀ u ∈ pend, base ≤ u.ts) →
      List.Pairwise (fun a b : AccessUnit => a.ts < b.ts) (resolveAux W fuel base pend).2.1
      ∧ (∀ u ∈ (resolveAux W fuel base pend).2.1, (resolveAux W fuel base pend).1 ≤ u.ts)
      ∧ base ≤ (resolveAux W fuel base pend).1
      ∧ List.Pairwise (fun a b : AccessUnit => a.ts < b.ts) (resolveAux W fuel base pend).2.2
      ∧ (∀ u ∈ (resolveAux W fuel base pend).2.2,
          base ≤ u.ts ∧ u.ts < (resolveAux W fuel base pend).1)
      ∧ (∀ u ∈ (resolveAux W fuel base pend).2.2, complete u = true) := by
  intro fuel
  induction fuel with
  | zero =>
    intro base pend hp hlb
    simp only [resolveAux]
    exact ⟨hp, hlb, le_refl base, List.Pairwise.nil, by simp, by simp⟩
  | succ f ih =>
    intro base pend hp hlb
    cases pend with
    | nil =>
      simp only [resolveAux]
      exact ⟨List.Pairwise.nil, by simp, le_refl base, List.Pairwise.nil, by simp, by simp⟩
    | cons u rest =>
      obtain ⟨hhead, htail⟩ := List.pairwise_cons.mp hp
      have hbu : base ≤ u.ts := hlb u (List.mem_cons_self u rest)
      have hlb2 : ∀ x ∈ rest, u.ts + 1 ≤ x.ts := fun x hx => hhead x hx
      by_cases hc : complete u = true
      · obtain ⟨ih1, ih2, ih3, ih4, ih5, ih6⟩ := ih (u.ts + 1) rest htail hlb2
        simp only [resolveAux, hc, if_true]
        refine ⟨ih1, ih2, by omega, ?_, ?_, ?_⟩
        · refine List.pairwise_cons.mpr ⟨?_, ih4⟩
          intro x hx
          have := (ih5 x hx).1
          omega
        · intro x hx
          rcases List.mem_cons.mp hx with hx | hx
          · subst hx
            exact ⟨hbu, by omega⟩
          · obtain ⟨hx1, hx2⟩ := ih5 x hx
            exact ⟨by omega, hx2⟩
        · intro x hx
          rcases List.mem_cons.mp hx with hx | hx
          · subst hx; exact hc
          · exact ih6 x hx
      · by_cases hw : W < (u :: rest).length
        · obtain ⟨ih1, ih2, ih3, ih4, ih5, ih6⟩ := ih (u.ts + 1) rest htail hlb2
          simp only [resolveAux]
          rw [if_neg hc, if_pos hw]
          refine ⟨ih1, ih2, by omega, ih4, ?_, ih6⟩
          intro x hx
          obtain ⟨hx1, hx2⟩ := ih5 x hx
          exact ⟨by omega, hx2⟩
        · simp only [resolveAux]
          rw [if_neg hc, if_neg hw]
          exact ⟨hp, hlb, le_refl base, List.Pairwise.nil, by simp, by simp⟩

/-- `Push` followed by the pop drain: preserves sortedness and the base
bound, never moves the base backwards, and the popped batch is strictly
ordered, complete, and lies in `[old base, new base)`. -/
theorem push_spec (W : Nat) (st : RState) (p : Packet)
    (hp : List.Pairwise (fun a b : AccessUnit => a.ts < b.ts) st.pending)
    (hlb : ∀ u ∈ st.pending, st.base ≤ u.ts) :
    List.Pairwise (fun a b : AccessUnit => a.ts < b.ts) (push W st p).1.pending
    ∧ (∀ u ∈ (push W st p).1.pending, (push W st p).1.base ≤ u.ts)
    ∧ st.base ≤ (push W st p).1.base
    ∧ List.Pairwise (fun a b : AccessUnit => a.ts < b.ts) (push W st p).2
    ∧ (∀ u ∈ (push W st p).2, st.base ≤ u.ts ∧ u.ts < (push W st p).1.base)
    ∧ (∀ u ∈ (push W st p).2, complete u = true) := by
  by_cases hstale : p.ts < st.base
  · simp only [push, hstale, if_true]
    exact ⟨hp, hlb, le_refl _, List.Pairwise.nil, by simp, by simp⟩
  · have hple : st.base ≤ p.ts := by omega
    have hp2 := insertPending_pairwise p st.pending hp
    have hlb2 := insertPending_lb p st.base st.pending hlb hple
    obtain ⟨h1, h2, h3, h4, h5, h6⟩ :=
      resolveAux_spec W (insertPending p st.pending).length st.base
        (insertPending p st.pending) hp2 hlb2
    simp only [push, hstale, if_false]
    exact ⟨h1, h2, h3, h4, h5, h6⟩

/-- The writer loop preserves: written units sorted strictly by timestamp,
complete, counted by the frame counter, and all below the window base. -/
theorem handleVideoTrack_spec :
    ∀ (pkts : List Packet) (st : RState) (w : WriterState),
      List.Pairwise (fun a b : AccessUnit => a.ts < b.ts) st.pending →
      (∀ u ∈ st.pending, st.base ≤ u.ts) →
      List.Pairwise (fun a b : AccessUnit => a.ts < b.ts) w.written →
      (∀ u ∈ w.written, u.ts < st.base) →
      (∀ u ∈ w.written, complete u = true) →
      w.frames = w.written.length →
      List.Pairwise (fun a b : AccessUnit => a.ts < b.ts) (handleVideoTrack st w pkts).2.written
      ∧ (∀ u ∈ (handleVideoTrack st w pkts).2.written, complete u = true)
      ∧ (handleVideoTrack st w pkts).2.frames = (handleVideoTrack st w pkts).2.written.length
      ∧ (∀ u ∈ (handleVideoTrack st w pkts).2.written,
          u.ts < (handleVideoTrack st w pkts).1.base) := by
  intro pkts
  induction pkts with
  | nil =>
    intro st w hp hlb hwp hwlt hwc hwf
    exact ⟨hwp, hwc, hwf, hwlt⟩
  | cons pkt rest ih =>
    intro st w hp hlb hwp hwlt hwc hwf
    obtain ⟨h1, h2, h3, h4, h5, h6⟩ := push_spec maxLate st pkt hp hlb
    have hwp2 : List.Pairwise (fun a b : AccessUnit => a.ts < b.ts)
        (w.written ++ (push maxLate st pkt).2) := by
      refine List.pairwise_append.mpr ⟨hwp, h4, ?_⟩
      intro a ha b hb
      have hb1 := (h5 b hb).1
      have ha1 := hwlt a ha
      omega
    have hwlt2 : ∀ u ∈ w.written ++ (push maxLate st pkt).2,
        u.ts < (push maxLate st pkt).1.base := by
      intro u hu
      rcases List.mem_append.mp hu with hu | hu
      · have := hwlt u hu
        omega
      · exact (h5 u hu).2
    have hwc2 : ∀ u ∈ w.written ++ (push maxLate st pkt).2, complete u = true := by
      intro u hu
      rcases List.mem_append.mp hu with hu | hu
      · exact hwc u hu
      · exact h6 u hu
    have hwf2 : w.frames + (push maxLate st pkt).2.length
        = (w.written ++ (push maxLate st pkt).2).length := by
      rw [List.length_append, hwf]
    have := ih (push maxLate st pkt).1
      ⟨w.frames + (push maxLate st pkt).2.length, w.written ++ (push maxLate st pkt).2⟩
      h1 h2 hwp2 hwlt2 hwc2 hwf2
    simpa [handleVideoTrack] using this

/-- C8: the media reassembler emits access units in strictly increasing
timestamp order (hence in non-decreasing order and never the same unit
twice) and never emits a partial unit: every written unit has all its
constituent fragments, incomplete units evicted at the window edge are
discarded instead of written, and the frame counter counts exactly the
written units.  Holds for every sequence of transport packets, however
disordered. -/
theorem emissions_ordered_unique_complete (pkts : List Packet) :
    List.Pairwise (fun a b : AccessUnit => a.ts < b.ts)
      (handleVideoTrack ⟨0, []⟩ ⟨0, []⟩ pkts).2.written
    ∧ (∀ u ∈ (handleVideoTrack ⟨0, []⟩ ⟨0, []⟩ pkts).2.written, complete u = true)
    ∧ (handleVideoTrack ⟨0, []⟩ ⟨0, []⟩ pkts).2.frames
        = (handleVideoTrack ⟨0, []⟩ ⟨0, []⟩ pkts).2.written.length := by
  obtain ⟨h1, h2, h3, _⟩ := handleVideoTrack_spec pkts ⟨0, []⟩ ⟨0, []⟩
    List.Pairwise.nil (by simp) List.Pairwise.nil (by simp) (by simp) rfl
  exact ⟨h1, h2, h3⟩

end Reassembler

namespace SnapRecorder

/-- C6 counterexample: in the current raw-H264 `TakeSnapshot` (recorder.go
lines 405-472), a transcoder failure for a concrete `.jpg` target whose
intermediate raw recording exists returns a hard failure, preserves no
file (the deferred remove deletes the intermediate) and prints no
partial-success warning — contradicting the claimed fallback. -/
theorem h264_jpeg_transcode_failure_is_hard :
    (takeSnapshotH264Final "snapshot.jpg" (some "exit status 1")).err ≠ none
    ∧ (takeSnapshotH264Final "snapshot.jpg" (some "exit status 1")).keptFiles = []
    ∧ (takeSnapshotH264Final "snapshot.jpg" (some "exit status 1")).warning = none := by
  refine ⟨?_, rfl, rfl⟩
  intro h
  simp [takeSnapshotH264Final, lowerStr, filepathExt] at h

/-- C6 (amended): the preserve-under-fallback-name behaviour holds only in
the legacy WebM-based `TakeSnapshot` (recorder.go lines 199-250): there, a
failed frame extraction for a JPEG target preserves the intermediate
recording under the fallback name `TrimSuffix(outputPath, ext) + ".webm"`,
reports the failure as a partial-success warning and returns no error.  In
the current raw-H264 `TakeSnapshot` (lines 405-472), a transcoder failure
is returned as a hard error and the intermediate raw file is deleted by
the deferred remove, whatever the target path. -/
theorem transcoder_failure_fallback_paths :
    (∀ p e : String, wantJPEG p = true →
       takeSnapshotWebMFinal p (some e) =
         { err := none,
           keptFiles := [trimSuffix p (filepathExt p) ++ ".webm"],
           warning := some e })
    ∧ (∀ p e : String,
       takeSnapshotH264Final p (some e) =
         { err := some ("ffmpeg conversion failed: " ++ e),
           keptFiles := [], warning := none }) := by
  constructor
  · intro p e hj
    simp [takeSnapshotWebMFinal, hj]
  · intro p e
    by_cases h : (lowerStr (filepathExt p) == ".webm") = true
    · simp [takeSnapshotH264Final, h]
    · simp [takeSnapshotH264Final, h]

/-- Witness for `transcoder_failure_fallback_paths` on concrete paths. -/
theorem transcoder_failure_fallback_paths_witness :
    wantJPEG "snapshot.jpg" = true
    ∧ takeSnapshotWebMFinal "snapshot.jpg" (some "no keyframe") =
        { err := none, keptFiles := ["snapshot.webm"], warning := some "no keyframe" }
    ∧ takeSnapshotH264Final "clip.webm" (some "boom") =
        { err := some ("ffmpeg conversion failed: " ++ "boom"),
          keptFiles := [], warning := none } :=
  ⟨by decide,
   (transcoder_failure_fallback_paths.1 "snapshot.jpg" "no keyframe" (by decide)).trans
     (by decide),
   transcoder_failure_fallback_paths.2 "clip.webm" "boom"⟩

end SnapRecorder

namespace Reassembler

/-- Witness for `emissions_ordered_unique_complete` on a concrete
out-of-order packet sequence (fragments of unit 10 reversed, a stale
packet, then a later unit). -/
theorem emissions_ordered_unique_complete_witness :
    List.Pairwise (fun a b : AccessUnit => a.ts < b.ts)
      (handleVideoTrack ⟨0, []⟩ ⟨0, []⟩
        [⟨10, 1, 2⟩, ⟨10, 0, 2⟩, ⟨5, 0, 1⟩, ⟨20, 0, 1⟩]).2.written
    ∧ (∀ u ∈ (handleVideoTrack ⟨0, []⟩ ⟨0, []⟩
        [⟨10, 1, 2⟩, ⟨10, 0, 2⟩, ⟨5, 0, 1⟩, ⟨20, 0, 1⟩]).2.written, complete u = true)
    ∧ (handleVideoTrack ⟨0, []⟩ ⟨0, []⟩
        [⟨10, 1, 2⟩, ⟨10, 0, 2⟩, ⟨5, 0, 1⟩, ⟨20, 0, 1⟩]).2.frames
        = (handleVideoTrack ⟨0, []⟩ ⟨0, []⟩
            [⟨10, 1, 2⟩, ⟨10, 0, 2⟩, ⟨5, 0, 1⟩, ⟨20, 0, 1⟩]).2.written.length :=
  emissions_ordered_unique_complete [⟨10, 1, 2⟩, ⟨10, 0, 2⟩, ⟨5, 0, 1⟩, ⟨20, 0, 1⟩]

end Reassembler
